import Mathlib

/-!
Verification of the scratch static-site builder: a shallow embedding of the
entry/artifact model, the path/template resolution subsystem, the template
tier materializer and the build orchestrator, together with theorems about
the behaviour of those components.

Paths are modelled as plain strings over the separator character. The Node
path functions are modelled for the normalized inputs the builder feeds
them (absolute base directories, relative segments without dot segments);
each model notes its assumption in its doc comment.
-/

namespace Scratch

/-- Model of Node `path.resolve(base, rel)` for an absolute normalized
`base` and a normalized `rel` that contains no `.` or `..` segments: an
absolute `rel` wins, otherwise the two are joined with a separator. -/
def pathResolve (base rel : String) : String :=
  if rel.data.head? = some '/' then rel else base ++ "/" ++ rel

/-- Model of Node `path.resolve(p)` on a single already-absolute,
normalized path: the path itself. -/
def resolveAbs (p : String) : String := p

/-- Model of Node `path.join(a, b)` for a normalized `a` and a relative
normalized `b`. -/
def pathJoin (a b : String) : String := a ++ "/" ++ b

/-- Model of Node `path.relative(base, target)` for the case the builder
relies on: `target` lying strictly under `base`. Other inputs are
returned unchanged. -/
def pathRelative (base target : String) : String :=
  if (base ++ "/").data.isPrefixOf target.data then
    String.mk (target.data.drop (base.data.length + 1))
  else target

/-- Model of Node `path.basename(p)` for a path without a trailing
separator: the segment after the last separator. -/
def basename (p : String) : String :=
  String.mk ((p.data.reverse.takeWhile (fun c => c ≠ '/')).reverse)

/-- The replacement `relPath.replace(/\.[^/.]+$/, ...)` performed by the
`Entry` constructor, on character lists: if the path ends in a dot
followed by one or more characters none of which is a dot or a
separator, that suffix is removed; otherwise the path is unchanged. -/
def stripExtData (l : List Char) : List Char :=
  let rev := l.reverse
  let ext := rev.takeWhile (fun c => c ≠ '.' && c ≠ '/')
  let rest := rev.drop ext.length
  if rest.head? = some '.' && !ext.isEmpty then rest.tail.reverse else l

/-- String form of `stripExtData`. -/
def stripExt (s : String) : String := String.mk (stripExtData s.data)

/-! ### JS records as association lists

A JS plain-object record is modelled as an association list with the JS
property-assignment semantics: assigning an existing key replaces the
binding in place, assigning a fresh key appends it. -/

/-- JS record property read `m[k]` (as an `Option`). -/
def recordGet? {α : Type} (m : List (String × α)) (k : String) : Option α :=
  (m.find? (fun kv => kv.1 = k)).map Prod.snd

/-- JS `k in m` membership test. -/
def recordHas {α : Type} (m : List (String × α)) (k : String) : Bool :=
  m.any (fun kv => kv.1 = k)

/-- JS record property assignment `m[k] = v`. -/
def recordSet {α : Type} (m : List (String × α)) (k : String) (v : α) :
    List (String × α) :=
  if recordHas m k then m.map (fun kv => if kv.1 = k then (k, v) else kv)
  else m ++ [(k, v)]

/-! ### The Entry model (`src/build/context.ts`) -/

/-- `Entry` from `context.ts`: one source document with its route name,
absolute source path, relative path and base directory. -/
structure Entry where
  name : String
  absPath : String
  relPath : String
  baseDir : String
deriving Repr, DecidableEq

/-- The `Entry` constructor from `context.ts`: resolve the source file and
base directory, compute the path of the source file relative to the base
directory, and strip the final extension to obtain the entry name. -/
def Entry.make (sourceFile baseDir : String) : Entry :=
  let abs := resolveAbs sourceFile
  let base := resolveAbs baseDir
  let rel := pathRelative base abs
  { name := stripExt rel, absPath := abs, relPath := rel, baseDir := base }

/-- `Entry.getArtifactPath` from `context.ts`: if the basename of the
entry name is the index marker the artifact sits at `<name><ext>` under
the output base directory, otherwise at `<name>/index<ext>`. -/
def Entry.getArtifactPath (e : Entry) (extension : String) (baseDir : String) :
    String :=
  if basename e.name = "index" then pathResolve baseDir (e.name ++ extension)
  else pathResolve baseDir (e.name ++ "/index" ++ extension)

/-- `BuildContext.getEntries` from `context.ts`: build an `Entry` for each
globbed document file and store it in a record keyed by the entry name.
A later file whose name collides with an earlier one replaces it through
plain record assignment. -/
def getEntries (mdxFiles : List String) (pagesDir : String) :
    List (String × Entry) :=
  mdxFiles.foldl
    (fun acc f =>
      let e := Entry.make f pagesDir
      recordSet acc e.name e)
    []

/-! ### Record and extension-stripping lemmas -/

theorem takeWhile_append_all {p : Char → Bool} {l₁ l₂ : List Char}
    (h : ∀ a ∈ l₁, p a = true) :
    (l₁ ++ l₂).takeWhile p = l₁ ++ l₂.takeWhile p := by
  induction l₁ with
  | nil => simp
  | cons a l ih =>
    simp only [List.cons_append, List.takeWhile_cons, h a (by simp)]
    rw [ih (fun b hb => h b (by simp [hb]))]
    simp

theorem stripExtData_append_ext (s ext : List Char) (hne : ext ≠ [])
    (hdot : '.' ∉ ext) (hsl : '/' ∉ ext) :
    stripExtData (s ++ '.' :: ext) = s := by
  have hall : ∀ a ∈ ext.reverse, (fun c => c ≠ '.' && c ≠ '/') a = true := by
    intro a ha
    rw [List.mem_reverse] at ha
    simp only [Bool.and_eq_true, decide_eq_true_eq]
    exact ⟨fun h => hdot (h ▸ ha), fun h => hsl (h ▸ ha)⟩
  have hrev : (s ++ '.' :: ext).reverse = ext.reverse ++ '.' :: s.reverse := by
    simp
  have htw : ((s ++ '.' :: ext).reverse.takeWhile
      (fun c => c ≠ '.' && c ≠ '/')) = ext.reverse := by
    rw [hrev, takeWhile_append_all hall]
    simp [List.takeWhile_cons]
  have hdrop : (s ++ '.' :: ext).reverse.drop ext.reverse.length
      = '.' :: s.reverse := by
    rw [hrev, List.drop_left]
  simp only [stripExtData, htw, hdrop, List.head?_cons, List.tail_cons,
    List.reverse_reverse]
  have hext : ext.reverse.isEmpty = false := by
    cases h : ext.reverse with
    | nil => exact absurd (by simpa using h) hne
    | cons a l => rfl
  simp [hext]

theorem recordHas_cons {α : Type} (hd : String × α) (tl : List (String × α))
    (k : String) :
    recordHas (hd :: tl) k = (decide (hd.1 = k) || recordHas tl k) := by
  simp [recordHas]

theorem recordGet?_cons {α : Type} (hd : String × α) (tl : List (String × α))
    (k : String) :
    recordGet? (hd :: tl) k = if hd.1 = k then some hd.2 else recordGet? tl k := by
  by_cases hk : hd.1 = k
  · simp [recordGet?, List.find?_cons_of_pos, hk]
  · simp [recordGet?, List.find?_cons_of_neg, hk]

theorem recordHas_eq_true_iff {α : Type} (m : List (String × α)) (k : String) :
    recordHas m k = true ↔ k ∈ m.map Prod.fst := by
  induction m with
  | nil => simp [recordHas]
  | cons hd tl ih =>
    simp only [recordHas_cons, Bool.or_eq_true, decide_eq_true_eq,
      List.map_cons, List.mem_cons, ih]
    constructor
    · rintro (h | h)
      · exact Or.inl h.symm
      · exact Or.inr h
    · rintro (h | h)
      · exact Or.inl h.symm
      · exact Or.inr h

theorem recordHas_eq_false_iff {α : Type} (m : List (String × α)) (k : String) :
    recordHas m k = false ↔ k ∉ m.map Prod.fst := by
  constructor
  · intro h hk
    rw [← recordHas_eq_true_iff] at hk
    rw [h] at hk
    exact absurd hk (by simp)
  · intro h
    cases hh : recordHas m k with
    | false => rfl
    | true => exact absurd ((recordHas_eq_true_iff m k).mp hh) h

theorem recordSet_keys {α : Type} (m : List (String × α)) (k : String) (v : α) :
    (recordSet m k v).map Prod.fst =
      if recordHas m k then m.map Prod.fst else m.map Prod.fst ++ [k] := by
  cases hh : recordHas m k with
  | false => simp [recordSet, hh]
  | true =>
    rw [recordSet, if_pos hh, List.map_map]
    simp only [reduceIte]
    apply List.map_congr_left
    intro kv _
    by_cases hk : kv.1 = k
    · simp [Function.comp, hk]
    · simp [Function.comp, hk]

theorem recordSet_keys_nodup {α : Type} (m : List (String × α)) (k : String)
    (v : α) (h : (m.map Prod.fst).Nodup) :
    ((recordSet m k v).map Prod.fst).Nodup := by
  rw [recordSet_keys]
  cases hh : recordHas m k with
  | true => simpa using h
  | false =>
    have hk : k ∉ m.map Prod.fst := (recordHas_eq_false_iff m k).mp hh
    simp only [if_neg, Bool.false_eq_true, reduceIte]
    rw [List.nodup_append]
    refine ⟨h, List.nodup_singleton k, ?_⟩
    intro a ha hb
    rw [List.mem_singleton] at hb
    exact hk (hb ▸ ha)

theorem recordGet?_map_subst {α : Type} (m : List (String × α)) (k : String)
    (v : α) (h : recordHas m k = true) :
    recordGet? (m.map (fun kv => if kv.1 = k then (k, v) else kv)) k
      = some v := by
  induction m with
  | nil => simp [recordHas] at h
  | cons hd tl ih =>
    by_cases hk : hd.1 = k
    · simp [recordGet?_cons, hk]
    · have htl : recordHas tl k = true := by
        simpa [recordHas_cons, hk] using h
      simp [recordGet?_cons, hk, ih htl]

theorem recordGet?_append_single {α : Type} (m : List (String × α))
    (k : String) (v : α) (h : k ∉ m.map Prod.fst) :
    recordGet? (m ++ [(k, v)]) k = some v := by
  induction m with
  | nil => simp [recordGet?_cons]
  | cons hd tl ih =>
    have hk : hd.1 ≠ k := fun hc => h (by simp [← hc])
    have htl : k ∉ tl.map Prod.fst := fun hc => h (by simp [hc])
    simp [recordGet?_cons, hk, ih htl]

theorem recordGet?_recordSet_self {α : Type} (m : List (String × α))
    (k : String) (v : α) : recordGet? (recordSet m k v) k = some v := by
  cases hh : recordHas m k with
  | true =>
    rw [recordSet, if_pos hh]
    exact recordGet?_map_subst m k v hh
  | false =>
    rw [recordSet, if_neg (by simp [hh])]
    exact recordGet?_append_single m k v ((recordHas_eq_false_iff m k).mp hh)

theorem getEntries_keys_nodup_aux (files : List String) (dir : String)
    (acc : List (String × Entry)) (h : (acc.map Prod.fst).Nodup) :
    ((files.foldl
      (fun acc f =>
        let e := Entry.make f dir
        recordSet acc e.name e) acc).map Prod.fst).Nodup := by
  induction files generalizing acc with
  | nil => exact h
  | cons f fs ih =>
    exact ih _ (recordSet_keys_nodup _ _ _ h)

/-! ### Claim theorems: entry and artifact model -/

/-- C1: for every entry, extension and output base directory, the folded
artifact path is `<baseDir>/<name><ext>` when the basename of the entry
name is the index marker and `<baseDir>/<name>/index<ext>` otherwise; in
particular a document `about.md` folds to `about/index.html` and
`docs/index.md` folds to `docs/index.html`. -/
theorem getArtifactPath_folding_rule (e : Entry) (ext base : String)
    (hne : e.name ≠ "") (habs : e.name.data.head? ≠ some '/') :
    (basename e.name = "index" →
      e.getArtifactPath ext base = base ++ "/" ++ (e.name ++ ext)) ∧
    (basename e.name ≠ "index" →
      e.getArtifactPath ext base = base ++ "/" ++ (e.name ++ "/index" ++ ext)) ∧
    (Entry.make "/proj/pages/about.md" "/proj/pages").getArtifactPath
      ".html" "/out" = "/out/about/index.html" ∧
    (Entry.make "/proj/pages/docs/index.md" "/proj/pages").getArtifactPath
      ".html" "/out" = "/out/docs/index.html" := by
  rcases List.exists_cons_of_ne_nil
      (fun hd => hne (String.ext (by simpa using hd))) with ⟨c, cs, hcs⟩
  have hc : c ≠ '/' := by
    intro hc
    exact habs (by rw [hcs, hc]; rfl)
  have hhead : ∀ l : List Char, (e.name.data ++ l).head? ≠ some '/' := by
    intro l hcontra
    rw [hcs] at hcontra
    exact hc (by simpa using hcontra)
  refine ⟨?_, ?_, by decide, by decide⟩
  · intro hidx
    have hno : ¬((e.name ++ ext).data.head? = some '/') := by
      rw [String.data_append]
      exact hhead _
    rw [Entry.getArtifactPath, if_pos hidx, pathResolve, if_neg hno]
  · intro hidx
    have hno : ¬((e.name ++ "/index" ++ ext).data.head? = some '/') := by
      rw [String.data_append, String.data_append, List.append_assoc]
      exact hhead _
    rw [Entry.getArtifactPath, if_neg hidx, pathResolve, if_neg hno]

/-- Witness for the folding-rule theorem at the entry built from
`/proj/pages/guide.md`. -/
theorem getArtifactPath_folding_rule_witness :
    (basename (Entry.make "/proj/pages/guide.md" "/proj/pages").name = "index" →
      (Entry.make "/proj/pages/guide.md" "/proj/pages").getArtifactPath
        ".html" "/out" = "/out" ++ "/" ++
          ((Entry.make "/proj/pages/guide.md" "/proj/pages").name ++ ".html")) ∧
    (basename (Entry.make "/proj/pages/guide.md" "/proj/pages").name ≠ "index" →
      (Entry.make "/proj/pages/guide.md" "/proj/pages").getArtifactPath
        ".html" "/out" = "/out" ++ "/" ++
          ((Entry.make "/proj/pages/guide.md" "/proj/pages").name ++
            "/index" ++ ".html")) ∧
    (Entry.make "/proj/pages/about.md" "/proj/pages").getArtifactPath
      ".html" "/out" = "/out/about/index.html" ∧
    (Entry.make "/proj/pages/docs/index.md" "/proj/pages").getArtifactPath
      ".html" "/out" = "/out/docs/index.html" :=
  getArtifactPath_folding_rule (Entry.make "/proj/pages/guide.md" "/proj/pages")
    ".html" "/out" (by decide) (by decide)

/-- C10: entry-name construction strips only the final dot-suffixed
extension, so any relative path of the form `<stem>.<ext>` with a
dot-free, separator-free, nonempty `<ext>` yields the name `<stem>`; in
particular `v1.2.md` yields the name `v1.2`, whose basename is not the
index marker, and the artifact path `v1.2/index.html`. -/
theorem entry_name_strips_only_final_extension (stem ext : List Char)
    (hne : ext ≠ []) (hdot : '.' ∉ ext) (hsl : '/' ∉ ext) :
    stripExt (String.mk (stem ++ '.' :: ext)) = String.mk stem ∧
    (Entry.make "/proj/pages/v1.2.md" "/proj/pages").name = "v1.2" ∧
    basename (Entry.make "/proj/pages/v1.2.md" "/proj/pages").name ≠ "index" ∧
    (Entry.make "/proj/pages/v1.2.md" "/proj/pages").getArtifactPath
      ".html" "/out" = "/out/v1.2/index.html" := by
  refine ⟨?_, by decide, by decide, by decide⟩
  rw [stripExt]
  exact congrArg String.mk (stripExtData_append_ext stem ext hne hdot hsl)

/-- Witness for the extension-stripping theorem at the stem `v1.2` and
extension `md`. -/
theorem entry_name_strips_only_final_extension_witness :
    stripExt (String.mk ("v1.2".data ++ '.' :: "md".data))
        = String.mk "v1.2".data ∧
    (Entry.make "/proj/pages/v1.2.md" "/proj/pages").name = "v1.2" ∧
    basename (Entry.make "/proj/pages/v1.2.md" "/proj/pages").name ≠ "index" ∧
    (Entry.make "/proj/pages/v1.2.md" "/proj/pages").getArtifactPath
      ".html" "/out" = "/out/v1.2/index.html" :=
  entry_name_strips_only_final_extension "v1.2".data "md".data
    (by decide) (by decide) (by decide)

/-- C3 counterexample: two documents that normalize to the same name are
not treated as a conflict; the later file silently replaces the earlier
one. With `about.md` and `about.mdx` in the same directory, the discovery
pass returns a single entry bound to `about.mdx`, and no entry for
`about.md` survives. -/
theorem getEntries_collision_not_a_conflict :
    getEntries ["/proj/pages/about.md", "/proj/pages/about.mdx"] "/proj/pages"
      = [("about", Entry.make "/proj/pages/about.mdx" "/proj/pages")] ∧
    (∀ kv ∈ getEntries ["/proj/pages/about.md", "/proj/pages/about.mdx"]
        "/proj/pages", kv.2.absPath ≠ "/proj/pages/about.md") := by
  decide

/-- C3 (amended): entry names in the map returned by one discovery pass
are unique, but a collision of normalized names is resolved by silent
replacement: the entry built from the last colliding file in glob order
is the one kept (last-write-wins), and no conflict is recorded. -/
theorem getEntries_unique_names_last_write_wins :
    (∀ (files : List String) (dir : String),
      ((getEntries files dir).map Prod.fst).Nodup) ∧
    (∀ (files : List String) (f dir : String),
      recordGet? (getEntries (files ++ [f]) dir) (Entry.make f dir).name
        = some (Entry.make f dir)) ∧
    getEntries ["/proj/pages/about.md", "/proj/pages/about.mdx"] "/proj/pages"
      = [("about", Entry.make "/proj/pages/about.mdx" "/proj/pages")] := by
  refine ⟨?_, ?_, by decide⟩
  · intro files dir
    exact getEntries_keys_nodup_aux files dir [] (by simp)
  · intro files f dir
    rw [getEntries, List.foldl_append]
    exact recordGet?_recordSet_self _ _ _

/-! ### Embedded template materialization (`context.ts`, `template.ts`) -/

/-- One file of the embedded template bundle (`template.generated.ts`):
its content and whether it is stored base64-encoded. The model works with
decoded content directly, so `getWritableContent` is the content field. -/
structure TemplateFile where
  content : String
  binary : Bool
deriving Repr, DecidableEq

/-- `hasTemplate` from `template.ts`. -/
def hasTemplate (templates : List (String × TemplateFile)) (p : String) : Bool :=
  recordHas templates p

/-- The materialization state of one `BuildContext`: the
`materializedPaths` cache together with the log of `fs.writeFile` calls
performed so far, as (target path, content) pairs in call order. -/
structure MatState where
  materializedPaths : List (String × String)
  writes : List (String × String)
deriving Repr, DecidableEq

/-- The materialization state of a freshly constructed context. -/
def MatState.empty : MatState := { materializedPaths := [], writes := [] }

/-- `BuildContext.clearCaches` restricted to the materialization state:
the cache is emptied; the write log is history, not cache. -/
def clearCaches (ms : MatState) : MatState := { ms with materializedPaths := [] }

/-- `materializeTemplate` from `template.ts`: look the template up and
write its content to the target path; an unknown template id throws. -/
def materializeTemplate (templates : List (String × TemplateFile))
    (templatePath targetPath : String) (ms : MatState) :
    Except String MatState :=
  match recordGet? templates templatePath with
  | none => .error ("Template not found: " ++ templatePath)
  | some f => .ok { ms with writes := ms.writes ++ [(targetPath, f.content)] }

/-- `BuildContext.materializeEmbeddedFile` from `context.ts`: return the
cached path when the template id was materialized before, otherwise write
the embedded file under the embedded-templates directory and cache the
target path. -/
def materializeEmbeddedFile (templates : List (String × TemplateFile))
    (embeddedTemplatesDir templatePath : String) (ms : MatState) :
    Except String (String × MatState) :=
  match recordGet? ms.materializedPaths templatePath with
  | some p => .ok (p, ms)
  | none =>
    let targetPath := pathResolve embeddedTemplatesDir templatePath
    match materializeTemplate templates templatePath targetPath ms with
    | .error e => .error e
    | .ok ms1 =>
      .ok (targetPath,
        { ms1 with materializedPaths :=
            ms1.materializedPaths ++ [(templatePath, targetPath)] })

/-- `BuildContext.resolvePathWithFallback` from `context.ts`: return the
first candidate that exists under the project root, else materialize the
fallback embedded template. `fsExists` models `fs.exists`. -/
def resolvePathWithFallback (fsExists : String → Bool)
    (templates : List (String × TemplateFile))
    (rootDir embeddedTemplatesDir : String) (candidates : List String)
    (fallbackTemplatePath : String) (ms : MatState) :
    Except String (String × MatState) :=
  match candidates with
  | [] =>
    materializeEmbeddedFile templates embeddedTemplatesDir
      fallbackTemplatePath ms
  | c :: cs =>
    let userPath := pathResolve rootDir c
    if fsExists userPath then .ok (userPath, ms)
    else
      resolvePathWithFallback fsExists templates rootDir embeddedTemplatesDir
        cs fallbackTemplatePath ms

/-- `BuildContext.pageWrapperPath` from `context.ts`. -/
def pageWrapperPath (fsExists : String → Bool)
    (templates : List (String × TemplateFile))
    (rootDir embeddedTemplatesDir : String) (ms : MatState) :
    Except String (String × MatState) :=
  resolvePathWithFallback fsExists templates rootDir embeddedTemplatesDir
    ["src/PageWrapper.jsx", "src/PageWrapper.tsx"] "src/PageWrapper.jsx" ms

theorem recordGet?_eq_none_iff {α : Type} (m : List (String × α)) (k : String) :
    recordGet? m k = none ↔ k ∉ m.map Prod.fst := by
  induction m with
  | nil => simp [recordGet?]
  | cons hd tl ih =>
    rw [recordGet?_cons]
    by_cases hk : hd.1 = k
    · simp [hk]
    · have hk2 : ¬(k = hd.1) := fun h => hk h.symm
      simp [hk, hk2, ih]

/-! ### Claim theorems: path resolution with fallback -/

/-- C4: resolvePathWithFallback returns the first candidate path,
resolved under the project root in list order, that exists; when no
candidate exists it materializes the named embedded default into the
private cache; and pageWrapperPath returns a project file at
src/PageWrapper.jsx ahead of the embedded default whatever the
materialization cache already holds. -/
theorem resolvePathWithFallback_first_match (fsExists : String → Bool)
    (templates : List (String × TemplateFile))
    (rootDir etDir fallback c : String) (pre post : List String) (ms : MatState)
    (hpre : ∀ p ∈ pre, fsExists (pathResolve rootDir p) = false)
    (hc : fsExists (pathResolve rootDir c) = true) :
    resolvePathWithFallback fsExists templates rootDir etDir
        (pre ++ c :: post) fallback ms = .ok (pathResolve rootDir c, ms) ∧
    (∀ cs : List String, (∀ p ∈ cs, fsExists (pathResolve rootDir p) = false) →
      resolvePathWithFallback fsExists templates rootDir etDir cs fallback ms
        = materializeEmbeddedFile templates etDir fallback ms) ∧
    (fsExists (pathResolve rootDir "src/PageWrapper.jsx") = true →
      ∀ ms2 : MatState, pageWrapperPath fsExists templates rootDir etDir ms2
        = .ok (pathResolve rootDir "src/PageWrapper.jsx", ms2)) := by
  refine ⟨?_, ?_, ?_⟩
  · induction pre with
    | nil => simp [resolvePathWithFallback, hc]
    | cons p ps ih =>
      simp only [List.cons_append, resolvePathWithFallback,
        hpre p (by simp), Bool.false_eq_true, if_false]
      exact ih (fun q hq => hpre q (by simp [hq]))
  · intro cs hcs
    induction cs with
    | nil => rfl
    | cons p ps ih =>
      simp only [resolvePathWithFallback, hcs p (by simp),
        Bool.false_eq_true, if_false]
      exact ih (fun q hq => hcs q (by simp [hq]))
  · intro hex ms2
    simp [pageWrapperPath, resolvePathWithFallback, hex]

/-- Witness for the first-match theorem: with only
`/proj/src/index.css` present, the candidate list of the style entry
resolves to it, skipping the missing `src/tailwind.css`. -/
theorem resolvePathWithFallback_first_match_witness :
    resolvePathWithFallback (fun p => decide (p = "/proj/src/index.css")) []
        "/proj" "/cache" (["src/tailwind.css"] ++ "src/index.css"
          :: ["src/globals.css"]) "src/tailwind.css" MatState.empty
      = .ok (pathResolve "/proj" "src/index.css", MatState.empty) ∧
    (∀ cs : List String, (∀ p ∈ cs,
        (fun p => decide (p = "/proj/src/index.css"))
          (pathResolve "/proj" p) = false) →
      resolvePathWithFallback (fun p => decide (p = "/proj/src/index.css")) []
          "/proj" "/cache" cs "src/tailwind.css" MatState.empty
        = materializeEmbeddedFile [] "/cache" "src/tailwind.css"
            MatState.empty) ∧
    ((fun p => decide (p = "/proj/src/index.css"))
        (pathResolve "/proj" "src/PageWrapper.jsx") = true →
      ∀ ms2 : MatState,
        pageWrapperPath (fun p => decide (p = "/proj/src/index.css")) []
            "/proj" "/cache" ms2
          = .ok (pathResolve "/proj" "src/PageWrapper.jsx", ms2)) :=
  resolvePathWithFallback_first_match
    (fun p => decide (p = "/proj/src/index.css")) [] "/proj" "/cache"
    "src/tailwind.css" "src/index.css" ["src/tailwind.css"]
    ["src/globals.css"] MatState.empty (by decide) (by decide)

/-- C5: materializing the same embedded template id twice within one
build with no intervening clearCaches performs exactly one filesystem
write for that id and returns the same materialized path both times; the
second call leaves the state untouched. -/
theorem materializeEmbeddedFile_memoized
    (templates : List (String × TemplateFile)) (etDir tp : String)
    (ms : MatState) (f : TemplateFile)
    (hcache : recordGet? ms.materializedPaths tp = none)
    (htmpl : recordGet? templates tp = some f) :
    materializeEmbeddedFile templates etDir tp ms
      = .ok (pathResolve etDir tp,
          { materializedPaths :=
              ms.materializedPaths ++ [(tp, pathResolve etDir tp)],
            writes := ms.writes ++ [(pathResolve etDir tp, f.content)] }) ∧
    materializeEmbeddedFile templates etDir tp
        { materializedPaths :=
            ms.materializedPaths ++ [(tp, pathResolve etDir tp)],
          writes := ms.writes ++ [(pathResolve etDir tp, f.content)] }
      = .ok (pathResolve etDir tp,
          { materializedPaths :=
              ms.materializedPaths ++ [(tp, pathResolve etDir tp)],
            writes := ms.writes ++ [(pathResolve etDir tp, f.content)] }) := by
  constructor
  · simp [materializeEmbeddedFile, hcache, materializeTemplate, htmpl]
  · have hfind : recordGet?
        (ms.materializedPaths ++ [(tp, pathResolve etDir tp)]) tp
        = some (pathResolve etDir tp) :=
      recordGet?_append_single _ _ _ ((recordGet?_eq_none_iff _ _).mp hcache)
    simp [materializeEmbeddedFile, hfind]

/-- Witness for the memoization theorem at a concrete one-template
bundle and fresh state. -/
theorem materializeEmbeddedFile_memoized_witness :
    materializeEmbeddedFile [("src/PageWrapper.jsx", TemplateFile.mk "PW" false)]
        "/cache" "src/PageWrapper.jsx" MatState.empty
      = .ok (pathResolve "/cache" "src/PageWrapper.jsx",
          { materializedPaths := MatState.empty.materializedPaths
              ++ [("src/PageWrapper.jsx",
                    pathResolve "/cache" "src/PageWrapper.jsx")],
            writes := MatState.empty.writes
              ++ [(pathResolve "/cache" "src/PageWrapper.jsx", "PW")] }) ∧
    materializeEmbeddedFile [("src/PageWrapper.jsx", TemplateFile.mk "PW" false)]
        "/cache" "src/PageWrapper.jsx"
        { materializedPaths := MatState.empty.materializedPaths
            ++ [("src/PageWrapper.jsx",
                  pathResolve "/cache" "src/PageWrapper.jsx")],
          writes := MatState.empty.writes
            ++ [(pathResolve "/cache" "src/PageWrapper.jsx", "PW")] }
      = .ok (pathResolve "/cache" "src/PageWrapper.jsx",
          { materializedPaths := MatState.empty.materializedPaths
              ++ [("src/PageWrapper.jsx",
                    pathResolve "/cache" "src/PageWrapper.jsx")],
            writes := MatState.empty.writes
              ++ [(pathResolve "/cache" "src/PageWrapper.jsx", "PW")] }) :=
  materializeEmbeddedFile_memoized
    [("src/PageWrapper.jsx", TemplateFile.mk "PW" false)] "/cache"
    "src/PageWrapper.jsx" MatState.empty (TemplateFile.mk "PW" false)
    (by decide) (by decide)

/-! ### Component map with conflict tracking (`context.ts`) -/

/-- `FileMapResult` from `util.ts`: the name-to-path map and the set of
conflicting names produced by one directory scan. JS `Set` insertion
order is modelled as a duplicate-free ordered list maintained by
`setAdd`. -/
structure FileMapResult where
  map : List (String × String)
  conflicts : List String
deriving Repr, DecidableEq

/-- JS `Set.prototype.add`. -/
def setAdd (s : List String) (x : String) : List String :=
  if s.contains x then s else s ++ [x]

/-- The body of the pages-merge loop in `BuildContext.getComponentMap`:
a name already present in the map is recorded as a conflict instead of
being overwritten; a fresh name is added to the map. -/
def mergeStep (r : FileMapResult) (nv : String × String) : FileMapResult :=
  if recordHas r.map nv.1 then { r with conflicts := setAdd r.conflicts nv.1 }
  else { r with map := r.map ++ [nv] }

/-- The pages-directory merge of `BuildContext.getComponentMap`
(context.ts lines 283-296): fold the pages scan into the source scan
through `mergeStep`, then import the pages scan conflicts. -/
def mergePagesComponents (acc pagesRes : FileMapResult) : FileMapResult :=
  let step1 := pagesRes.map.foldl mergeStep acc
  pagesRes.conflicts.foldl
    (fun r c => { r with conflicts := setAdd r.conflicts c }) step1

/-- The PageWrapper fallback of `getComponentMap`: back-fill the embedded
default only when the name is absent from the map. -/
def addPageWrapperFallback (templates : List (String × TemplateFile))
    (etDir : String) (st : FileMapResult × MatState) :
    Except String (FileMapResult × MatState) :=
  if recordHas st.1.map "PageWrapper" then .ok st
  else
    match materializeEmbeddedFile templates etDir "src/PageWrapper.jsx" st.2 with
    | .error e => .error e
    | .ok (p, ms1) =>
      .ok ({ st.1 with map := st.1.map ++ [("PageWrapper", p)] }, ms1)

/-- The markdown-component fallback of `getComponentMap` for one
component name: back-fill the embedded `.tsx` variant when the name is
absent from the map and the template bundle holds that variant. -/
def addMarkdownComponentFallback (templates : List (String × TemplateFile))
    (etDir comp : String) (st : FileMapResult × MatState) :
    Except String (FileMapResult × MatState) :=
  if recordHas st.1.map comp then .ok st
  else
    if hasTemplate templates ("src/markdown/" ++ comp ++ ".tsx") then
      match materializeEmbeddedFile templates etDir
          ("src/markdown/" ++ comp ++ ".tsx") st.2 with
      | .error e => .error e
      | .ok (p, ms1) => .ok ({ st.1 with map := st.1.map ++ [(comp, p)] }, ms1)
    else .ok st

/-- `BuildContext.getComponentMap` from `context.ts`, parametrized by the
`buildFileMap` scan results of the source and pages directories (the scan
itself lives in `util.ts`): start from the source scan when that
directory exists, merge the pages scan with conflict tracking, then
back-fill PageWrapper and the markdown components CodeBlock and Heading
from the embedded templates. The returned `FileMapResult` carries both
the component map and the conflict set that
`getComponentConflicts` exposes. -/
def getComponentMap (srcDirExists pagesDirExists : Bool)
    (srcRes pagesRes : FileMapResult)
    (templates : List (String × TemplateFile)) (etDir : String)
    (ms : MatState) : Except String (FileMapResult × MatState) :=
  let base := if srcDirExists then srcRes else { map := [], conflicts := [] }
  let merged :=
    if pagesDirExists then mergePagesComponents base pagesRes else base
  match addPageWrapperFallback templates etDir (merged, ms) with
  | .error e => .error e
  | .ok st1 =>
    match addMarkdownComponentFallback templates etDir "CodeBlock" st1 with
    | .error e => .error e
    | .ok st2 => addMarkdownComponentFallback templates etDir "Heading" st2

theorem mem_setAdd_self (s : List String) (x : String) : x ∈ setAdd s x := by
  rw [setAdd]
  by_cases h : s.contains x = true
  · rw [if_pos h]
    exact List.elem_iff.mp h
  · rw [if_neg h]
    simp

theorem mem_setAdd_mono (s : List String) (x y : String) (h : y ∈ s) :
    y ∈ setAdd s x := by
  rw [setAdd]
  by_cases hc : s.contains x = true
  · rw [if_pos hc]
    exact h
  · rw [if_neg hc]
    simp [h]

theorem recordGet?_append_pair {α : Type} (m : List (String × α))
    (nv : String × α) (k : String) (h : nv.1 ≠ k) :
    recordGet? (m ++ [nv]) k = recordGet? m k := by
  induction m with
  | nil => simp [recordGet?_cons, h, recordGet?]
  | cons hd tl ih => simp [recordGet?_cons, ih]

theorem recordHas_append_pair {α : Type} (m : List (String × α))
    (nv : String × α) (k : String) (h : recordHas m k = true) :
    recordHas (m ++ [nv]) k = true := by
  simp only [recordHas, List.any_append, Bool.or_eq_true]
  exact Or.inl (by simpa [recordHas] using h)

theorem mergeStep_foldl_spec (l : List (String × String)) (acc : FileMapResult)
    (name : String) (h : recordHas acc.map name = true) :
    recordGet? (l.foldl mergeStep acc).map name = recordGet? acc.map name ∧
    recordHas (l.foldl mergeStep acc).map name = true ∧
    (∀ x, x ∈ acc.conflicts → x ∈ (l.foldl mergeStep acc).conflicts) ∧
    ((∃ nv ∈ l, nv.1 = name) → name ∈ (l.foldl mergeStep acc).conflicts) := by
  induction l generalizing acc with
  | nil =>
    refine ⟨rfl, h, fun x hx => hx, ?_⟩
    rintro ⟨nv, hnv, -⟩
    cases hnv
  | cons nv rest ih =>
    simp only [List.foldl_cons]
    by_cases hkey : nv.1 = name
    · have hhas : recordHas acc.map nv.1 = true := by rw [hkey]; exact h
      rw [mergeStep, if_pos hhas]
      obtain ⟨g1, g2, g3, g4⟩ :=
        ih { acc with conflicts := setAdd acc.conflicts nv.1 } h
      refine ⟨g1, g2, ?_, ?_⟩
      · intro x hx
        exact g3 x (mem_setAdd_mono _ _ _ hx)
      · intro _
        exact g3 name (hkey ▸ mem_setAdd_self acc.conflicts nv.1)
    · by_cases hhas : recordHas acc.map nv.1 = true
      · rw [mergeStep, if_pos hhas]
        obtain ⟨g1, g2, g3, g4⟩ :=
          ih { acc with conflicts := setAdd acc.conflicts nv.1 } h
        refine ⟨g1, g2, fun x hx => g3 x (mem_setAdd_mono _ _ _ hx), ?_⟩
        rintro ⟨mv, hmv, hmvk⟩
        rcases List.mem_cons.mp hmv with hmv | hmv
        · exact absurd (hmv ▸ hmvk) hkey
        · exact g4 ⟨mv, hmv, hmvk⟩
      · rw [mergeStep, if_neg hhas]
        have h2 : recordHas (acc.map ++ [nv]) name = true :=
          recordHas_append_pair acc.map nv name h
        obtain ⟨g1, g2, g3, g4⟩ := ih { acc with map := acc.map ++ [nv] } h2
        refine ⟨?_, g2, g3, ?_⟩
        · rw [g1]
          exact recordGet?_append_pair acc.map nv name hkey
        · rintro ⟨mv, hmv, hmvk⟩
          rcases List.mem_cons.mp hmv with hmv | hmv
          · exact absurd (hmv ▸ hmvk) hkey
          · exact g4 ⟨mv, hmv, hmvk⟩

theorem conflictsFold_map (l : List String) (r : FileMapResult) :
    (l.foldl (fun r c => { r with conflicts := setAdd r.conflicts c }) r).map
      = r.map := by
  induction l generalizing r with
  | nil => rfl
  | cons c cs ih => simpa using ih { r with conflicts := setAdd r.conflicts c }

theorem conflictsFold_mem (l : List String) (r : FileMapResult) (x : String)
    (h : x ∈ r.conflicts) :
    x ∈ (l.foldl (fun r c => { r with conflicts := setAdd r.conflicts c })
      r).conflicts := by
  induction l generalizing r with
  | nil => exact h
  | cons c cs ih =>
    exact ih { r with conflicts := setAdd r.conflicts c }
      (mem_setAdd_mono _ _ _ h)

theorem mergePagesComponents_spec (acc pagesRes : FileMapResult)
    (name : String) (h : recordHas acc.map name = true)
    (hp : recordHas pagesRes.map name = true) :
    recordGet? (mergePagesComponents acc pagesRes).map name
      = recordGet? acc.map name ∧
    recordHas (mergePagesComponents acc pagesRes).map name = true ∧
    name ∈ (mergePagesComponents acc pagesRes).conflicts := by
  obtain ⟨g1, g2, g3, g4⟩ := mergeStep_foldl_spec pagesRes.map acc name h
  have hex : ∃ nv ∈ pagesRes.map, nv.1 = name := by
    rcases List.mem_map.mp ((recordHas_eq_true_iff _ _).mp hp) with ⟨nv, hnv, hk⟩
    exact ⟨nv, hnv, hk⟩
  refine ⟨?_, ?_, ?_⟩
  · rw [mergePagesComponents]
    rw [conflictsFold_map]
    exact g1
  · rw [mergePagesComponents]
    have : (pagesRes.conflicts.foldl
        (fun r c => { r with conflicts := setAdd r.conflicts c })
        (pagesRes.map.foldl mergeStep acc)).map
        = (pagesRes.map.foldl mergeStep acc).map := conflictsFold_map _ _
    rw [this]
    exact g2
  · exact conflictsFold_mem _ _ _ (g4 hex)

theorem addPageWrapperFallback_preserves (templates : List (String × TemplateFile))
    (etDir name : String) (r : FileMapResult) (ms : MatState)
    (r' : FileMapResult) (ms' : MatState)
    (h : recordHas r.map name = true)
    (hok : addPageWrapperFallback templates etDir (r, ms) = .ok (r', ms')) :
    recordGet? r'.map name = recordGet? r.map name ∧
    r'.conflicts = r.conflicts ∧ recordHas r'.map name = true := by
  by_cases hPW : recordHas r.map "PageWrapper" = true
  · rw [addPageWrapperFallback, if_pos hPW] at hok
    cases hok
    exact ⟨rfl, rfl, h⟩
  · have hne : "PageWrapper" ≠ name := by
      intro hc
      exact hPW (hc ▸ h)
    rw [addPageWrapperFallback, if_neg hPW] at hok
    cases hm : materializeEmbeddedFile templates etDir "src/PageWrapper.jsx" ms with
    | error e => rw [hm] at hok; cases hok
    | ok pms =>
      rw [hm] at hok
      cases hok
      exact ⟨recordGet?_append_pair r.map _ name hne, rfl,
        recordHas_append_pair r.map _ name h⟩

theorem addMarkdownComponentFallback_preserves
    (templates : List (String × TemplateFile)) (etDir comp name : String)
    (r : FileMapResult) (ms : MatState) (r' : FileMapResult) (ms' : MatState)
    (h : recordHas r.map name = true)
    (hok : addMarkdownComponentFallback templates etDir comp (r, ms)
      = .ok (r', ms')) :
    recordGet? r'.map name = recordGet? r.map name ∧
    r'.conflicts = r.conflicts ∧ recordHas r'.map name = true := by
  by_cases hc : recordHas r.map comp = true
  · rw [addMarkdownComponentFallback, if_pos hc] at hok
    cases hok
    exact ⟨rfl, rfl, h⟩
  · have hne : comp ≠ name := by
      intro he
      exact hc (he ▸ h)
    rw [addMarkdownComponentFallback, if_neg hc] at hok
    by_cases ht : hasTemplate templates ("src/markdown/" ++ comp ++ ".tsx") = true
    · rw [if_pos ht] at hok
      cases hm : materializeEmbeddedFile templates etDir
          ("src/markdown/" ++ comp ++ ".tsx") ms with
      | error e => rw [hm] at hok; cases hok
      | ok pms =>
        rw [hm] at hok
        cases hok
        exact ⟨recordGet?_append_pair r.map _ name hne, rfl,
          recordHas_append_pair r.map _ name h⟩
    · rw [if_neg ht] at hok
      cases hok
      exact ⟨rfl, rfl, h⟩

/-! ### Claim theorems: component conflicts -/

/-- C9: when a component of the same bare name is found by the scans of
both the library (src) directory and the documents (pages) directory,
getComponentMap records the name in the conflict set and keeps the
library directory path in the map instead of silently overwriting it
with the pages directory path. -/
theorem getComponentMap_conflict_keeps_src (srcRes pagesRes : FileMapResult)
    (templates : List (String × TemplateFile)) (etDir name : String)
    (ms : MatState) (r : FileMapResult) (ms' : MatState)
    (hs : recordHas srcRes.map name = true)
    (hp : recordHas pagesRes.map name = true)
    (hok : getComponentMap true true srcRes pagesRes templates etDir ms
      = .ok (r, ms')) :
    name ∈ r.conflicts ∧ recordGet? r.map name = recordGet? srcRes.map name := by
  obtain ⟨m1, m2, m3⟩ := mergePagesComponents_spec srcRes pagesRes name hs hp
  rw [getComponentMap] at hok
  simp only [reduceIte] at hok
  split at hok
  · exact absurd hok (by simp)
  next st1 heq1 =>
    split at hok
    · exact absurd hok (by simp)
    next st2 heq2 =>
      obtain ⟨p1, p2, p3⟩ := addPageWrapperFallback_preserves templates etDir
        name _ ms st1.1 st1.2 m2 heq1
      obtain ⟨q1, q2, q3⟩ := addMarkdownComponentFallback_preserves templates
        etDir "CodeBlock" name st1.1 st1.2 st2.1 st2.2 p3 heq2
      obtain ⟨w1, w2, w3⟩ := addMarkdownComponentFallback_preserves templates
        etDir "Heading" name st2.1 st2.2 r ms' q3 hok
      refine ⟨?_, ?_⟩
      · rw [w2, q2, p2]
        exact m3
      · rw [w1, q1, p1, m1]

/-- Witness for the conflict theorem: `Button` defined in both the
library scan and the pages scan is recorded as a conflict and keeps the
library path. -/
theorem getComponentMap_conflict_keeps_src_witness :
    "Button" ∈ (FileMapResult.mk
        [("Button", "/proj/src/Button.tsx"),
         ("PageWrapper", "/proj/src/PageWrapper.jsx"),
         ("CodeBlock", "/proj/src/markdown/CodeBlock.tsx"),
         ("Heading", "/proj/src/markdown/Heading.tsx")]
        ["Button"]).conflicts ∧
    recordGet? (FileMapResult.mk
        [("Button", "/proj/src/Button.tsx"),
         ("PageWrapper", "/proj/src/PageWrapper.jsx"),
         ("CodeBlock", "/proj/src/markdown/CodeBlock.tsx"),
         ("Heading", "/proj/src/markdown/Heading.tsx")]
        ["Button"]).map "Button"
      = recordGet? (FileMapResult.mk
        [("Button", "/proj/src/Button.tsx"),
         ("PageWrapper", "/proj/src/PageWrapper.jsx"),
         ("CodeBlock", "/proj/src/markdown/CodeBlock.tsx"),
         ("Heading", "/proj/src/markdown/Heading.tsx")] []).map "Button" :=
  getComponentMap_conflict_keeps_src
    (FileMapResult.mk
      [("Button", "/proj/src/Button.tsx"),
       ("PageWrapper", "/proj/src/PageWrapper.jsx"),
       ("CodeBlock", "/proj/src/markdown/CodeBlock.tsx"),
       ("Heading", "/proj/src/markdown/Heading.tsx")] [])
    (FileMapResult.mk [("Button", "/proj/pages/Button.tsx")] [])
    [] "/cache" "Button" MatState.empty
    (FileMapResult.mk
      [("Button", "/proj/src/Button.tsx"),
       ("PageWrapper", "/proj/src/PageWrapper.jsx"),
       ("CodeBlock", "/proj/src/markdown/CodeBlock.tsx"),
       ("Heading", "/proj/src/markdown/Heading.tsx")]
      ["Button"]) MatState.empty
    (by decide) (by decide) (by rfl)

/-! ### Template tier materializer (`src/template.ts`) -/

/-- Model of JS `String.prototype.startsWith`. -/
def strStartsWith (s pre : String) : Bool := pre.data.isPrefixOf s.data

/-- `MINIMAL_FILES` from `template.ts`. -/
def MINIMAL_FILES : List String := [".gitignore", "AGENTS.md", "pages/index.mdx"]

/-- `MINIMAL_INFRASTRUCTURE_FILES` from `template.ts`. -/
def MINIMAL_INFRASTRUCTURE_FILES : List String := ["public/favicon.svg"]

/-- `MINIMAL_FILE_OVERRIDES` from `template.ts`: the minimal-mode
substitution map from original paths to minimal-variant template ids. -/
def MINIMAL_FILE_OVERRIDES : List (String × String) :=
  [("src/template/PageWrapper.jsx", "src/template/PageWrapper.minimal.jsx")]

/-- `MINIMAL_SKIP_FILES` from `template.ts`. -/
def MINIMAL_SKIP_FILES : List String :=
  ["src/template/PageWrapper.jsx", "src/template/PageWrapper.minimal.jsx",
   "src/template/Header.jsx", "src/template/Footer.jsx",
   "src/template/ScratchBadge.jsx", "src/template/Copyright.jsx"]

/-- `isMinimalFile` from `template.ts`. -/
def isMinimalFile (p : String) : Bool :=
  MINIMAL_FILES.contains p || strStartsWith p "public/"
    || strStartsWith p "pages/components/"

/-- `isSrcFile` from `template.ts`. -/
def isSrcFile (p : String) : Bool := strStartsWith p "src/"

/-- `MaterializeOptions` from `template.ts`. -/
structure MaterializeOptions where
  includeSrc : Bool := true
  minimal : Bool := false
  overwrite : Bool := false
deriving Repr, DecidableEq

/-- The per-file body of the main loop of `materializeProjectTemplates`
(template.ts lines 127-185): the writes this template entry performs
(none, or the single write of its content at its own relative path), with
the skip conditions in source order. `fsExists` models existence of a
file at a target path inside the target directory. -/
def mainLoopWrites (fsExists : String → Bool) (targetDir : String)
    (o : MaterializeOptions) (rp : String) (f : TemplateFile) :
    List (String × String) :=
  if strStartsWith rp "_build/" then []
  else if isSrcFile rp && !o.includeSrc then []
  else if o.minimal && MINIMAL_SKIP_FILES.contains rp then []
  else if o.minimal && (strStartsWith rp "pages/" || strStartsWith rp "public/")
      && !MINIMAL_INFRASTRUCTURE_FILES.contains rp then []
  else if !isMinimalFile rp && !isSrcFile rp then []
  else if o.minimal && recordHas MINIMAL_FILE_OVERRIDES rp then []
  else if fsExists (pathJoin targetDir rp) && !o.overwrite then []
  else [(rp, f.content)]

/-- One entry of the minimal-mode override loop of
`materializeProjectTemplates` (template.ts lines 188-212): write the
override template content at the original path, skipping a missing
override template or an existing file without the overwrite flag. -/
def overrideLoopWrites (fsExists : String → Bool) (targetDir : String)
    (o : MaterializeOptions) (templates : List (String × TemplateFile))
    (ov : String × String) : List (String × String) :=
  match recordGet? templates ov.2 with
  | none => []
  | some f =>
    if fsExists (pathJoin targetDir ov.1) && !o.overwrite then []
    else [(ov.1, f.content)]

/-- `materializeProjectTemplates` from `template.ts`, as the ordered list
of (relative output path, written content) pairs of its `fs.writeFile`
calls: the main loop over the template bundle followed, in minimal mode,
by the override loop. Directory creation and the returned `created` list
are not modelled. -/
def materializeProjectTemplates (fsExists : String → Bool) (targetDir : String)
    (templates : List (String × TemplateFile)) (o : MaterializeOptions) :
    List (String × String) :=
  (templates.flatMap (fun e => mainLoopWrites fsExists targetDir o e.1 e.2)) ++
    (if o.minimal then
      MINIMAL_FILE_OVERRIDES.flatMap
        (overrideLoopWrites fsExists targetDir o templates)
    else [])

theorem mainLoopWrites_shape (fsExists : String → Bool) (targetDir : String)
    (o : MaterializeOptions) (rp : String) (f : TemplateFile) :
    mainLoopWrites fsExists targetDir o rp f = [] ∨
    mainLoopWrites fsExists targetDir o rp f = [(rp, f.content)] := by
  unfold mainLoopWrites
  repeat' split
  all_goals simp

theorem mainLoopWrites_skip_minimal (fsExists : String → Bool)
    (targetDir : String) (o : MaterializeOptions) (rp : String)
    (f : TemplateFile) (hmin : o.minimal = true)
    (hskip : MINIMAL_SKIP_FILES.contains rp = true) :
    mainLoopWrites fsExists targetDir o rp f = [] := by
  unfold mainLoopWrites
  split
  · rfl
  split
  · rfl
  rw [if_pos (by rw [hmin, hskip]; rfl)]

theorem mainFlatMap_no_pageWrapper (fsExists : String → Bool)
    (targetDir : String) (templates : List (String × TemplateFile))
    (o : MaterializeOptions) (hmin : o.minimal = true) :
    ∀ pc ∈ templates.flatMap
      (fun e => mainLoopWrites fsExists targetDir o e.1 e.2),
      pc.1 ≠ "src/template/PageWrapper.jsx" := by
  intro pc hpc hfst
  rcases List.mem_flatMap.mp hpc with ⟨e, he, hmem⟩
  rcases mainLoopWrites_shape fsExists targetDir o e.1 e.2 with hc | hc
  · rw [hc] at hmem
    cases hmem
  · rw [hc] at hmem
    rcases List.mem_singleton.mp hmem with rfl
    have : mainLoopWrites fsExists targetDir o e.1 e.2 = [] :=
      mainLoopWrites_skip_minimal fsExists targetDir o e.1 e.2 hmin
        (by rw [hfst]; decide)
    rw [this] at hc
    cases hc

theorem mainFlatMap_paths_sublist (fsExists : String → Bool)
    (targetDir : String) (templates : List (String × TemplateFile))
    (o : MaterializeOptions) :
    ((templates.flatMap
      (fun e => mainLoopWrites fsExists targetDir o e.1 e.2)).map
        Prod.fst).Sublist (templates.map Prod.fst) := by
  induction templates with
  | nil => simp
  | cons hd tl ih =>
    rw [List.flatMap_cons, List.map_append, List.map_cons]
    rcases mainLoopWrites_shape fsExists targetDir o hd.1 hd.2 with hc | hc
    · rw [hc, List.map_nil, List.nil_append]
      exact ih.cons hd.1
    · rw [hc]
      exact ih.cons₂ hd.1

/-! ### Claim theorems: minimal-mode materialization -/

/-- C6: in minimal mode the standard template at
src/template/PageWrapper.jsx is never written by the main loop; every
write that targets that path carries the content of the minimal-variant
template src/template/PageWrapper.minimal.jsx; and no target path is
written more than once (the project-present, override-for-mode and plain
default sources are mutually exclusive per path). -/
theorem materializeProjectTemplates_minimal_pageWrapper
    (fsExists : String → Bool) (targetDir : String)
    (templates : List (String × TemplateFile)) (includeSrc overwrite : Bool)
    (hnd : (templates.map Prod.fst).Nodup) :
    (∀ pc ∈ templates.flatMap
        (fun e => mainLoopWrites fsExists targetDir
          (MaterializeOptions.mk includeSrc true overwrite) e.1 e.2),
      pc.1 ≠ "src/template/PageWrapper.jsx") ∧
    (∀ pc ∈ materializeProjectTemplates fsExists targetDir templates
        (MaterializeOptions.mk includeSrc true overwrite),
      pc.1 = "src/template/PageWrapper.jsx" →
        ∃ f, recordGet? templates "src/template/PageWrapper.minimal.jsx"
            = some f ∧ pc.2 = f.content) ∧
    ((materializeProjectTemplates fsExists targetDir templates
        (MaterializeOptions.mk includeSrc true overwrite)).map
          Prod.fst).Nodup := by
  have hmain := mainFlatMap_no_pageWrapper fsExists targetDir templates
    (MaterializeOptions.mk includeSrc true overwrite) rfl
  refine ⟨hmain, ?_, ?_⟩
  · intro pc hpc hfst
    rw [materializeProjectTemplates] at hpc
    rcases List.mem_append.mp hpc with hm | hm
    · exact absurd hfst (hmain pc hm)
    · rw [if_pos rfl] at hm
      rw [MINIMAL_FILE_OVERRIDES, List.flatMap_cons, List.flatMap_nil,
        List.append_nil] at hm
      rw [overrideLoopWrites] at hm
      split at hm
      · cases hm
      next f heq =>
        split at hm
        · cases hm
        · rcases List.mem_singleton.mp hm with rfl
          exact ⟨f, heq, rfl⟩
  · rw [materializeProjectTemplates, if_pos rfl, List.map_append]
    have hmainnd : ((templates.flatMap
        (fun e => mainLoopWrites fsExists targetDir
          (MaterializeOptions.mk includeSrc true overwrite) e.1 e.2)).map
            Prod.fst).Nodup :=
      hnd.sublist (mainFlatMap_paths_sublist fsExists targetDir templates _)
    rw [List.nodup_append]
    refine ⟨hmainnd, ?_, ?_⟩
    · rw [MINIMAL_FILE_OVERRIDES, List.flatMap_cons, List.flatMap_nil,
        List.append_nil, overrideLoopWrites]
      split
      · simp
      · split
        · simp
        · simp
    · intro a ha hb
      rw [MINIMAL_FILE_OVERRIDES, List.flatMap_cons, List.flatMap_nil,
        List.append_nil, overrideLoopWrites] at hb
      split at hb
      · simp at hb
      next f heq =>
        split at hb
        · simp at hb
        · simp only [List.map_cons, List.map_nil, List.mem_singleton] at hb
          subst hb
          rcases List.mem_map.mp ha with ⟨qc, hqc, hqfst⟩
          exact hmain qc hqc (by rw [hqfst])

/-- Witness for the minimal-mode materialization theorem at a concrete
bundle holding the standard and minimal PageWrapper variants and one
page. -/
theorem materializeProjectTemplates_minimal_pageWrapper_witness :
    (∀ pc ∈ [("src/template/PageWrapper.jsx", TemplateFile.mk "standard" false),
        ("src/template/PageWrapper.minimal.jsx", TemplateFile.mk "minimal" false),
        ("pages/index.mdx", TemplateFile.mk "hello" false)].flatMap
        (fun e => mainLoopWrites (fun _ => false) "/target"
          (MaterializeOptions.mk true true false) e.1 e.2),
      pc.1 ≠ "src/template/PageWrapper.jsx") ∧
    (∀ pc ∈ materializeProjectTemplates (fun _ => false) "/target"
        [("src/template/PageWrapper.jsx", TemplateFile.mk "standard" false),
         ("src/template/PageWrapper.minimal.jsx", TemplateFile.mk "minimal" false),
         ("pages/index.mdx", TemplateFile.mk "hello" false)]
        (MaterializeOptions.mk true true false),
      pc.1 = "src/template/PageWrapper.jsx" →
        ∃ f, recordGet?
            [("src/template/PageWrapper.jsx", TemplateFile.mk "standard" false),
             ("src/template/PageWrapper.minimal.jsx", TemplateFile.mk "minimal" false),
             ("pages/index.mdx", TemplateFile.mk "hello" false)]
            "src/template/PageWrapper.minimal.jsx" = some f ∧
          pc.2 = f.content) ∧
    ((materializeProjectTemplates (fun _ => false) "/target"
        [("src/template/PageWrapper.jsx", TemplateFile.mk "standard" false),
         ("src/template/PageWrapper.minimal.jsx", TemplateFile.mk "minimal" false),
         ("pages/index.mdx", TemplateFile.mk "hello" false)]
        (MaterializeOptions.mk true true false)).map Prod.fst).Nodup :=
  materializeProjectTemplates_minimal_pageWrapper (fun _ => false) "/target"
    [("src/template/PageWrapper.jsx", TemplateFile.mk "standard" false),
     ("src/template/PageWrapper.minimal.jsx", TemplateFile.mk "minimal" false),
     ("pages/index.mdx", TemplateFile.mk "hello" false)] true false (by decide)

/-! ### Build pipeline orchestrator (`src/build/orchestrator.ts`) -/

/-- `BuildPhase` from `build/types.ts`. -/
inductive BuildPhase
  | NotStarted
  | EnsureDependencies
  | ResetDirectories
  | CreateTsxEntries
  | TailwindCss
  | ServerBuild
  | RenderServer
  | ClientBuild
  | GenerateHtml
  | InjectFrontmatter
  | CopyPagesStatic
  | CopyPublicStatic
  | CopyToDist
  | Completed
  | Failed
deriving Repr, DecidableEq

/-- The observable part of a `Bun.build` result: the success flag and
the diagnostic logs as strings. -/
structure BunBuildResult where
  success : Bool
  logs : List String
deriving Repr, DecidableEq

/-- `BuildOptions` from `build/types.ts`; the optional `ssg` boolean
keeps its three-valued JS semantics (`none` models `undefined`, so the
strict `=== true` tests of the run predicates are `= some true`). The
static-copy mode is consulted by none of the modelled steps and is
omitted. -/
structure BuildOptions where
  ssg : Option Bool := none
deriving Repr, DecidableEq

/-- `StepOutputs` from `build/types.ts`. An outer `none` models a field
that is still `undefined`; for the fields typed `X | null` in TS the
inner `none` models `null`, so the strict `!== null` tests of the run
predicates are `≠ some none`. -/
structure StepOutputs where
  entries : Option (List (String × Entry)) := none
  clientEntryPts : Option (List (String × String)) := none
  serverEntryPts : Option (Option (List (String × String))) := none
  cssFilename : Option (Option String) := none
  serverBuildResult : Option (Option BunBuildResult) := none
  clientBuildResult : Option BunBuildResult := none
  jsOutputMap : Option (List (String × String)) := none
  renderedContent : Option (List (String × String)) := none
deriving Repr, DecidableEq

/-- `BuildPipelineState` from `build/types.ts`, instrumented with the
trace of assignments to `phase` (`phaseTrace`). `timings` keeps the step
names whose timing was recorded, in insertion order; the wall-clock
durations themselves are not modelled. -/
structure PipelineState where
  phase : BuildPhase
  options : BuildOptions
  outputs : StepOutputs
  timings : List String
  phaseTrace : List BuildPhase
  error : Option String := none
  failedStep : Option String := none
deriving Repr, DecidableEq

/-- The datum a step's `execute` resolves with, mirroring the
step-specific output types of `build/types.ts`; `void` models a step
that returns no data (the orchestrator ignores falsy data). -/
inductive StepData
  | void
  | tsx (entries : List (String × Entry))
      (clientEntryPts : List (String × String))
      (serverEntryPts : Option (List (String × String)))
  | tailwind (cssFilename : Option String)
  | server (buildResult : Option BunBuildResult)
  | render (renderedContent : List (String × String))
  | client (buildResult : BunBuildResult) (jsOutputMap : List (String × String))
deriving Repr, DecidableEq

/-- `storeStepOutput` from `orchestrator.ts`: route a step's datum into
the outputs bag by switching on the step name; void data is ignored. The
TS switch casts the datum to the output type of the named step; a datum
of another shape cannot reach a matching case in the real pipeline, and
the model leaves the state unchanged there. -/
def storeStepOutput (name : String) (data : StepData) (st : PipelineState) :
    PipelineState :=
  match data with
  | .void => st
  | .tsx es cpts spts =>
    if name = "03-create-tsx-entries" then
      { st with outputs := { st.outputs with
          entries := some es
          clientEntryPts := some cpts
          serverEntryPts := some spts } }
    else st
  | .tailwind css =>
    if name = "04-tailwind-css" then
      { st with outputs := { st.outputs with cssFilename := some css } }
    else st
  | .server br =>
    if name = "05-server-build" then
      { st with outputs := { st.outputs with serverBuildResult := some br } }
    else st
  | .render rc =>
    if name = "05b-render-server" then
      { st with outputs := { st.outputs with renderedContent := some rc } }
    else st
  | .client br jm =>
    if name = "06-client-build" then
      { st with outputs := { st.outputs with
          clientBuildResult := some br
          jsOutputMap := some jm } }
    else st

/-- A build step as the orchestrator sees it: name, phase, run predicate
and execution. The modelled executes are pure functions of the pipeline
state that resolve with data or reject with an error message. -/
structure Step where
  name : String
  phase : BuildPhase
  shouldRun : PipelineState → Bool
  execute : PipelineState → Except String StepData

/-- `executeStep` from `orchestrator.ts`: set the phase, run the step,
record its timing on success. The state in which a throwing step left
the shared record (phase already set, no timing) is returned alongside
the error. -/
def executeStep (step : Step) (st : PipelineState) :
    PipelineState × Except String StepData :=
  let st1 := { st with
    phase := step.phase
    phaseTrace := st.phaseTrace ++ [step.phase] }
  match step.execute st1 with
  | .error e => (st1, .error e)
  | .ok d => ({ st1 with timings := st1.timings ++ [step.name] }, .ok d)

/-- The outcome of `runBuildPipeline`: the final pipeline state, the
formatted error thrown to the caller (`none` on success), and the names
of the steps whose `execute` was invoked, in start order. -/
structure RunResult where
  state : PipelineState
  thrown : Option String
  executed : List String

/-- The failure handling shared by both catch blocks of
`runBuildPipeline`: the phase becomes Failed, the error and the failing
step name are recorded in state, and the formatted error is thrown. -/
def failResult (fbe : String → String) (failName e : String)
    (st : PipelineState) (executed : List String) : RunResult :=
  { state := { st with
      phase := .Failed
      phaseTrace := st.phaseTrace ++ [.Failed]
      error := some e
      failedStep := some failName }
    thrown := some (fbe e)
    executed := executed }

/-- The loop-exit of `runBuildPipeline`: all remaining steps processed,
the phase becomes Completed and no error is thrown. -/
def completedResult (st : PipelineState) (executed : List String) : RunResult :=
  { state := { st with
      phase := .Completed
      phaseTrace := st.phaseTrace ++ [.Completed] }
    thrown := none
    executed := executed }

/-- The shared pipeline state after the parallel pair's two concurrent
phase assignments, serialized in start order (style step first). -/
def parState (step s2 : Step) (st : PipelineState) : PipelineState :=
  { st with
    phase := s2.phase
    phaseTrace := st.phaseTrace ++ [step.phase, s2.phase] }

/-- The shared pipeline state after a successful parallel pair: both
phase assignments and both timing entries. -/
def parStateT (step s2 : Step) (st : PipelineState) : PipelineState :=
  { parState step s2 st with timings := st.timings ++ [step.name, s2.name] }

/-- The step loop of `runBuildPipeline` from `orchestrator.ts`,
parametrized by the error formatter `formatBuildError` (`fbe`). A step
whose predicate fails is skipped with no phase transition and no timing
entry. At the style step the loop looks one step ahead: when the
follower passes its predicate, both are started as the parallel pair.
The model serializes the two concurrent phase assignments in start order
(style first); mirroring the `Promise.all` rejection it reports the
style step's error when the style step failed and the follower's error
otherwise, records no timing for a failed pair, and attributes the
failure to the loop's current step - the style step's name - exactly as
the catch block does. -/
def runSteps (fbe : String → String) :
    List Step → PipelineState → List String → RunResult
  | [], st, executed => completedResult st executed
  | [step], st, executed =>
    if step.shouldRun st then
      match executeStep step st with
      | (st1, .error e) =>
        failResult fbe step.name e st1 (executed ++ [step.name])
      | (st1, .ok d) =>
        completedResult (storeStepOutput step.name d st1)
          (executed ++ [step.name])
    else completedResult st executed
  | step :: s2 :: rest2, st, executed =>
    if step.shouldRun st then
      if step.name = "04-tailwind-css" && s2.shouldRun st then
        match step.execute (parState step s2 st),
            s2.execute (parState step s2 st) with
        | .error e, _ =>
          failResult fbe step.name e (parState step s2 st)
            (executed ++ [step.name, s2.name])
        | .ok _, .error e =>
          failResult fbe step.name e (parState step s2 st)
            (executed ++ [step.name, s2.name])
        | .ok d1, .ok d2 =>
          runSteps fbe rest2
            (storeStepOutput s2.name d2
              (storeStepOutput step.name d1 (parStateT step s2 st)))
            (executed ++ [step.name, s2.name])
      else
        match executeStep step st with
        | (st1, .error e) =>
          failResult fbe step.name e st1 (executed ++ [step.name])
        | (st1, .ok d) =>
          runSteps fbe (s2 :: rest2) (storeStepOutput step.name d st1)
            (executed ++ [step.name])
    else runSteps fbe (s2 :: rest2) st executed

/-- The environment of one build run: the results of the external
effects the steps perform (dependency install, directory reset, the
document glob, the style compile, the two `Bun.build` invocations, the
per-page render, MDX preprocessing), consumed by the modelled steps. -/
structure PipelineWorld where
  ensureDepsResult : Except String Unit
  resetDirsResult : Except String Unit
  mdxFiles : List String
  pagesDir : String
  clientSrcDir : String
  serverSrcDir : String
  tailwindResult : Except String (Option String)
  serverBunBuild : Except String BunBuildResult
  clientBunBuild : Except String BunBuildResult
  clientJsOutputMap : List (String × String)
  renderPage : String → String
  preprocessErrors : List String

/-- The error thrown by the entry-generation step when no documents are
discovered (03-create-tsx-entries.ts). -/
def noPagesMessage : String :=
  "No pages found. Create MDX files in the pages/ directory.\n\nExample:\n  mkdir -p pages\n  echo \"# Hello World\" > pages/index.mdx\n\nThen run \x27scratch build\x27 again."

/-- `ensureDependenciesStep` (01): always runs. -/
def ensureDependenciesStep (w : PipelineWorld) : Step where
  name := "01-ensure-dependencies"
  phase := .EnsureDependencies
  shouldRun := fun _ => true
  execute := fun _ => w.ensureDepsResult.map (fun _ => .void)

/-- `resetDirectoriesStep` (02): always runs. -/
def resetDirectoriesStep (w : PipelineWorld) : Step where
  name := "02-reset-directories"
  phase := .ResetDirectories
  shouldRun := fun _ => true
  execute := fun _ => w.resetDirsResult.map (fun _ => .void)

/-- `createTsxEntriesStep` (03) from `03-create-tsx-entries.ts`: throws
the actionable no-pages error when discovery yields zero entries,
otherwise emits one client entry per document at the folded artifact
path, and one server entry per document when pre-render is enabled.
Template resolution never returns null (`resolvePathWithFallback`
always yields a path), so the missing-template branches are dead code
and not modelled. -/
def createTsxEntriesStep (w : PipelineWorld) : Step where
  name := "03-create-tsx-entries"
  phase := .CreateTsxEntries
  shouldRun := fun _ => true
  execute := fun st =>
    let entries := getEntries w.mdxFiles w.pagesDir
    if entries.length = 0 then .error noPagesMessage
    else
      .ok (.tsx entries
        (entries.map
          (fun ne => (ne.1, ne.2.getArtifactPath ".tsx" w.clientSrcDir)))
        (if st.options.ssg = some true then
          some (entries.map
            (fun ne => (ne.1, ne.2.getArtifactPath ".jsx" w.serverSrcDir)))
        else none))

/-- `tailwindCssStep` (04): always runs; resolves with the hashed css
filename or rejects with the style compiler error. -/
def tailwindCssStep (w : PipelineWorld) : Step where
  name := "04-tailwind-css"
  phase := .TailwindCss
  shouldRun := fun _ => true
  execute := fun _ => w.tailwindResult.map (fun css => .tailwind css)

/-- `serverBuildStep` (05) from `05-server-build.ts`: runs only when
pre-render is enabled and the server entry points are not null; wraps a
`Bun.build` throw, treats an unsuccessful result as fatal with the
bundler logs appended verbatim, and surfaces MDX preprocessing
errors. -/
def serverBuildStep (w : PipelineWorld) : Step where
  name := "05-server-build"
  phase := .ServerBuild
  shouldRun := fun st =>
    decide (st.options.ssg = some true ∧ st.outputs.serverEntryPts ≠ some none)
  execute := fun _ =>
    match w.serverBunBuild with
    | .error msg => .error ("Server bundle failed: " ++ msg)
    | .ok br =>
      if br.success = false then
        .error ("Server build failed:\n" ++ String.intercalate "\n" br.logs)
      else if w.preprocessErrors.length > 0 then
        .error "MDX preprocessing failed"
      else .ok (.server (some br))

/-- `renderServerStep` (05b) from `05b-render-server.ts`: runs only when
pre-render is enabled and the server build result is not null; renders
every discovered entry. -/
def renderServerStep (w : PipelineWorld) : Step where
  name := "05b-render-server"
  phase := .RenderServer
  shouldRun := fun st =>
    decide (st.options.ssg = some true ∧
      st.outputs.serverBuildResult ≠ some none)
  execute := fun st =>
    match st.outputs.entries with
    | some es => .ok (.render (es.map (fun ne => (ne.1, w.renderPage ne.1))))
    | none => .ok (.render [])

/-- `clientBuildStep` (06) from `06-client-build.ts`: always runs; the
failure handling mirrors the server build, and on success the
entry-to-hashed-asset map computed by `buildJsOutputMap` is returned. -/
def clientBuildStep (w : PipelineWorld) : Step where
  name := "06-client-build"
  phase := .ClientBuild
  shouldRun := fun _ => true
  execute := fun _ =>
    match w.clientBunBuild with
    | .error msg => .error ("Client bundle failed: " ++ msg)
    | .ok br =>
      if br.success = false then
        .error ("Client build failed:\n" ++ String.intercalate "\n" br.logs)
      else if w.preprocessErrors.length > 0 then
        .error "MDX preprocessing failed"
      else .ok (.client br w.clientJsOutputMap)

/-- `BUILD_STEPS` from `orchestrator.ts`: the seven modelled steps
followed by the HTML-assembly and copy tail of the pipeline
(generate-html, inject-frontmatter and the three copy steps), which the
claims constrain only through their names and phases and which the model
therefore takes abstractly. -/
def buildSteps (w : PipelineWorld) (tailSteps : List Step) : List Step :=
  [ensureDependenciesStep w, resetDirectoriesStep w, createTsxEntriesStep w,
   tailwindCssStep w, serverBuildStep w, renderServerStep w,
   clientBuildStep w] ++ tailSteps

/-- `createInitialState` from `orchestrator.ts`. -/
def initialState (options : BuildOptions) : PipelineState :=
  { phase := .NotStarted, options := options, outputs := {}, timings := [],
    phaseTrace := [] }

/-- `runBuildPipeline` from `orchestrator.ts`. -/
def runBuildPipeline (fbe : String → String) (w : PipelineWorld)
    (tailSteps : List Step) (options : BuildOptions) : RunResult :=
  runSteps fbe (buildSteps w tailSteps) (initialState options) []

theorem storeStepOutput_options (n : String) (d : StepData) (st : PipelineState) :
    (storeStepOutput n d st).options = st.options := by
  cases d <;> simp only [storeStepOutput] <;> try rfl
  all_goals split <;> rfl

theorem storeStepOutput_timings (n : String) (d : StepData) (st : PipelineState) :
    (storeStepOutput n d st).timings = st.timings := by
  cases d <;> simp only [storeStepOutput] <;> try rfl
  all_goals split <;> rfl

theorem storeStepOutput_phaseTrace (n : String) (d : StepData)
    (st : PipelineState) :
    (storeStepOutput n d st).phaseTrace = st.phaseTrace := by
  cases d <;> simp only [storeStepOutput] <;> try rfl
  all_goals split <;> rfl

theorem storeStepOutput_renderedContent (n : String) (d : StepData)
    (st : PipelineState) (h : n ≠ "05b-render-server") :
    (storeStepOutput n d st).outputs.renderedContent
      = st.outputs.renderedContent := by
  cases d <;> simp only [storeStepOutput] <;> try rfl
  all_goals split <;> first | rfl | (exfalso; simp_all)

theorem executeStep_fst_error (step : Step) (st st1 : PipelineState) (e : String)
    (h : executeStep step st = (st1, .error e)) :
    st1 = { st with
      phase := step.phase
      phaseTrace := st.phaseTrace ++ [step.phase] } := by
  rw [executeStep] at h
  split at h
  · cases h
    rfl
  · cases h

theorem executeStep_fst_ok (step : Step) (st st1 : PipelineState) (d : StepData)
    (h : executeStep step st = (st1, .ok d)) :
    st1 = { st with
      phase := step.phase
      phaseTrace := st.phaseTrace ++ [step.phase]
      timings := st.timings ++ [step.name] } := by
  rw [executeStep] at h
  split at h
  · cases h
  · cases h
    rfl

/-- The pipeline-wide absence of the server-bundle and render steps from
every observable trace of a run: the executed steps, the phase
transitions, the timing entries, and the rendered-content output. -/
def NoServerTrace (r : RunResult) : Prop :=
  r.state.outputs.renderedContent = none ∧
  "05-server-build" ∉ r.executed ∧ "05b-render-server" ∉ r.executed ∧
  BuildPhase.ServerBuild ∉ r.state.phaseTrace ∧
  BuildPhase.RenderServer ∉ r.state.phaseTrace ∧
  "05-server-build" ∉ r.state.timings ∧ "05b-render-server" ∉ r.state.timings

theorem failResult_noServerTrace (fbe : String → String) (failName e : String)
    (st : PipelineState) (executed : List String)
    (hrc : st.outputs.renderedContent = none)
    (hex1 : "05-server-build" ∉ executed)
    (hex2 : "05b-render-server" ∉ executed)
    (hpt1 : BuildPhase.ServerBuild ∉ st.phaseTrace)
    (hpt2 : BuildPhase.RenderServer ∉ st.phaseTrace)
    (htm1 : "05-server-build" ∉ st.timings)
    (htm2 : "05b-render-server" ∉ st.timings) :
    NoServerTrace (failResult fbe failName e st executed) := by
  rw [NoServerTrace]
  refine ⟨hrc, hex1, hex2, ?_, ?_, htm1, htm2⟩
  · simp [failResult, hpt1]
  · simp [failResult, hpt2]

theorem completedResult_noServerTrace (st : PipelineState)
    (executed : List String)
    (hrc : st.outputs.renderedContent = none)
    (hex1 : "05-server-build" ∉ executed)
    (hex2 : "05b-render-server" ∉ executed)
    (hpt1 : BuildPhase.ServerBuild ∉ st.phaseTrace)
    (hpt2 : BuildPhase.RenderServer ∉ st.phaseTrace)
    (htm1 : "05-server-build" ∉ st.timings)
    (htm2 : "05b-render-server" ∉ st.timings) :
    NoServerTrace (completedResult st executed) := by
  rw [NoServerTrace]
  refine ⟨hrc, hex1, hex2, ?_, ?_, htm1, htm2⟩
  · simp [completedResult, hpt1]
  · simp [completedResult, hpt2]

/-- Core invariant behind the pre-render-disabled scenario: running any
step list in which every step either carries none of the server-step
names and phases, or never passes its run predicate at states with these
options, preserves the absence of server-step traces. -/
theorem runSteps_server_skipped (fbe : String → String) (opts : BuildOptions)
    (steps : List Step)
    (hgood : ∀ s ∈ steps,
      (s.phase ≠ .ServerBuild ∧ s.phase ≠ .RenderServer ∧
        s.name ≠ "05-server-build" ∧ s.name ≠ "05b-render-server") ∨
      (∀ st' : PipelineState, st'.options = opts → s.shouldRun st' = false))
    (st : PipelineState) (executed : List String)
    (hopt : st.options = opts)
    (hrc : st.outputs.renderedContent = none)
    (hex1 : "05-server-build" ∉ executed)
    (hex2 : "05b-render-server" ∉ executed)
    (hpt1 : BuildPhase.ServerBuild ∉ st.phaseTrace)
    (hpt2 : BuildPhase.RenderServer ∉ st.phaseTrace)
    (htm1 : "05-server-build" ∉ st.timings)
    (htm2 : "05b-render-server" ∉ st.timings) :
    NoServerTrace (runSteps fbe steps st executed) := by
  suffices h : ∀ (n : Nat) (steps : List Step), steps.length ≤ n →
      (∀ s ∈ steps,
        (s.phase ≠ BuildPhase.ServerBuild ∧ s.phase ≠ BuildPhase.RenderServer ∧
          s.name ≠ "05-server-build" ∧ s.name ≠ "05b-render-server") ∨
        (∀ st' : PipelineState, st'.options = opts → s.shouldRun st' = false)) →
      ∀ (st : PipelineState) (executed : List String), st.options = opts →
        st.outputs.renderedContent = none →
        "05-server-build" ∉ executed → "05b-render-server" ∉ executed →
        BuildPhase.ServerBuild ∉ st.phaseTrace →
        BuildPhase.RenderServer ∉ st.phaseTrace →
        "05-server-build" ∉ st.timings → "05b-render-server" ∉ st.timings →
        NoServerTrace (runSteps fbe steps st executed) by
    exact h steps.length steps le_rfl hgood st executed hopt hrc hex1 hex2
      hpt1 hpt2 htm1 htm2
  clear hgood hopt hrc hex1 hex2 hpt1 hpt2 htm1 htm2 st executed steps
  intro n
  induction n with
  | zero =>
    intro steps hlen hgood st executed hopt hrc hex1 hex2 hpt1 hpt2 htm1 htm2
    have hnil : steps = [] := List.length_eq_zero.mp (Nat.le_zero.mp hlen)
    subst hnil
    rw [runSteps]
    exact completedResult_noServerTrace st executed hrc hex1 hex2 hpt1 hpt2
      htm1 htm2
  | succ m ihm =>
    intro steps hlen hgood st executed hopt hrc hex1 hex2 hpt1 hpt2 htm1 htm2
    cases steps with
    | nil =>
      rw [runSteps]
      exact completedResult_noServerTrace st executed hrc hex1 hex2 hpt1 hpt2
        htm1 htm2
    | cons step rest =>
      have hstepA : step.shouldRun st = true →
          step.phase ≠ BuildPhase.ServerBuild ∧
          step.phase ≠ BuildPhase.RenderServer ∧
          step.name ≠ "05-server-build" ∧ step.name ≠ "05b-render-server" := by
        intro hr
        rcases hgood step (by simp) with hA | hB
        · exact hA
        · rw [hB st hopt] at hr
          cases hr
      cases rest with
      | nil =>
        rw [runSteps]
        by_cases hrun : step.shouldRun st = true
        · obtain ⟨hph1, hph2, hnm1, hnm2⟩ := hstepA hrun
          rw [if_pos hrun]
          split
          next st1 e heq =>
            rcases executeStep_fst_error step st st1 e heq with rfl
            apply failResult_noServerTrace
            · exact hrc
            · simp [hex1, Ne.symm hnm1]
            · simp [hex2, Ne.symm hnm2]
            · simp [hpt1, Ne.symm hph1]
            · simp [hpt2, Ne.symm hph2]
            · exact htm1
            · exact htm2
          next st1 d heq =>
            rcases executeStep_fst_ok step st st1 d heq with rfl
            apply completedResult_noServerTrace
            · rw [storeStepOutput_renderedContent _ _ _ hnm2]
              exact hrc
            · simp [hex1, Ne.symm hnm1]
            · simp [hex2, Ne.symm hnm2]
            · rw [storeStepOutput_phaseTrace]
              simp [hpt1, Ne.symm hph1]
            · rw [storeStepOutput_phaseTrace]
              simp [hpt2, Ne.symm hph2]
            · rw [storeStepOutput_timings]
              simp [htm1, Ne.symm hnm1]
            · rw [storeStepOutput_timings]
              simp [htm2, Ne.symm hnm2]
        · rw [if_neg hrun]
          exact completedResult_noServerTrace st executed hrc hex1 hex2 hpt1
            hpt2 htm1 htm2
      | cons s2 rest2 =>
        have hrest : ∀ s ∈ s2 :: rest2,
            (s.phase ≠ BuildPhase.ServerBuild ∧
              s.phase ≠ BuildPhase.RenderServer ∧
              s.name ≠ "05-server-build" ∧ s.name ≠ "05b-render-server") ∨
            (∀ st' : PipelineState, st'.options = opts →
              s.shouldRun st' = false) :=
          fun s hs => hgood s (by simp [List.mem_cons.mp hs])
        have hrest2 : ∀ s ∈ rest2,
            (s.phase ≠ BuildPhase.ServerBuild ∧
              s.phase ≠ BuildPhase.RenderServer ∧
              s.name ≠ "05-server-build" ∧ s.name ≠ "05b-render-server") ∨
            (∀ st' : PipelineState, st'.options = opts →
              s.shouldRun st' = false) :=
          fun s hs => hrest s (by simp [hs])
        have hlen1 : (s2 :: rest2).length ≤ m := by
          simp only [List.length_cons] at hlen ⊢
          omega
        have hlen2 : rest2.length ≤ m := by
          simp only [List.length_cons] at hlen
          omega
        rw [runSteps]
        by_cases hrun : step.shouldRun st = true
        · obtain ⟨hph1, hph2, hnm1, hnm2⟩ := hstepA hrun
          rw [if_pos hrun]
          by_cases hpar :
              (step.name = "04-tailwind-css" && s2.shouldRun st) = true
          · have hs2run : s2.shouldRun st = true :=
              (Bool.and_eq_true_iff.mp hpar).2
            have hs2A : s2.phase ≠ BuildPhase.ServerBuild ∧
                s2.phase ≠ BuildPhase.RenderServer ∧
                s2.name ≠ "05-server-build" ∧
                s2.name ≠ "05b-render-server" := by
              rcases hrest s2 (by simp) with hA | hB
              · exact hA
              · rw [hB st hopt] at hs2run
                cases hs2run
            obtain ⟨hq1, hq2, hq3, hq4⟩ := hs2A
            rw [if_pos hpar]
            have hparT1 :
                BuildPhase.ServerBuild ∉ (parState step s2 st).phaseTrace := by
              simp [parState, hpt1, Ne.symm hph1, Ne.symm hq1]
            have hparT2 :
                BuildPhase.RenderServer ∉ (parState step s2 st).phaseTrace := by
              simp [parState, hpt2, Ne.symm hph2, Ne.symm hq2]
            split
            · apply failResult_noServerTrace
              · exact hrc
              · simp [hex1, Ne.symm hnm1, Ne.symm hq3]
              · simp [hex2, Ne.symm hnm2, Ne.symm hq4]
              · exact hparT1
              · exact hparT2
              · exact htm1
              · exact htm2
            · apply failResult_noServerTrace
              · exact hrc
              · simp [hex1, Ne.symm hnm1, Ne.symm hq3]
              · simp [hex2, Ne.symm hnm2, Ne.symm hq4]
              · exact hparT1
              · exact hparT2
              · exact htm1
              · exact htm2
            · apply ihm rest2 hlen2 hrest2
              · rw [storeStepOutput_options, storeStepOutput_options]
                exact hopt
              · rw [storeStepOutput_renderedContent _ _ _ hq4,
                  storeStepOutput_renderedContent _ _ _ hnm2]
                exact hrc
              · simp [hex1, Ne.symm hnm1, Ne.symm hq3]
              · simp [hex2, Ne.symm hnm2, Ne.symm hq4]
              · rw [storeStepOutput_phaseTrace, storeStepOutput_phaseTrace]
                simp [parStateT, parState, hpt1, Ne.symm hph1, Ne.symm hq1]
              · rw [storeStepOutput_phaseTrace, storeStepOutput_phaseTrace]
                simp [parStateT, parState, hpt2, Ne.symm hph2, Ne.symm hq2]
              · rw [storeStepOutput_timings, storeStepOutput_timings]
                simp [parStateT, parState, htm1, Ne.symm hnm1, Ne.symm hq3]
              · rw [storeStepOutput_timings, storeStepOutput_timings]
                simp [parStateT, parState, htm2, Ne.symm hnm2, Ne.symm hq4]
          · rw [if_neg hpar]
            split
            next st1 e heq =>
              rcases executeStep_fst_error step st st1 e heq with rfl
              apply failResult_noServerTrace
              · exact hrc
              · simp [hex1, Ne.symm hnm1]
              · simp [hex2, Ne.symm hnm2]
              · simp [hpt1, Ne.symm hph1]
              · simp [hpt2, Ne.symm hph2]
              · exact htm1
              · exact htm2
            next st1 d heq =>
              rcases executeStep_fst_ok step st st1 d heq with rfl
              apply ihm (s2 :: rest2) hlen1 hrest
              · rw [storeStepOutput_options]
                exact hopt
              · rw [storeStepOutput_renderedContent _ _ _ hnm2]
                exact hrc
              · simp [hex1, Ne.symm hnm1]
              · simp [hex2, Ne.symm hnm2]
              · rw [storeStepOutput_phaseTrace]
                simp [hpt1, Ne.symm hph1]
              · rw [storeStepOutput_phaseTrace]
                simp [hpt2, Ne.symm hph2]
              · rw [storeStepOutput_timings]
                simp [htm1, Ne.symm hnm1]
              · rw [storeStepOutput_timings]
                simp [htm2, Ne.symm hnm2]
        · rw [if_neg hrun]
          exact ihm (s2 :: rest2) hlen1 hrest st executed hopt hrc hex1 hex2
            hpt1 hpt2 htm1 htm2

theorem runSteps_cons_seq_ok (fbe : String → String) (step s2 : Step)
    (rest2 : List Step) (st : PipelineState) (executed : List String)
    (d : StepData) (hrun : step.shouldRun st = true)
    (hname : step.name ≠ "04-tailwind-css")
    (hexec : step.execute { st with
      phase := step.phase
      phaseTrace := st.phaseTrace ++ [step.phase] } = .ok d) :
    runSteps fbe (step :: s2 :: rest2) st executed
      = runSteps fbe (s2 :: rest2)
          (storeStepOutput step.name d { st with
            phase := step.phase
            phaseTrace := st.phaseTrace ++ [step.phase]
            timings := st.timings ++ [step.name] })
          (executed ++ [step.name]) := by
  have hE : executeStep step st = ({ st with
      phase := step.phase
      phaseTrace := st.phaseTrace ++ [step.phase]
      timings := st.timings ++ [step.name] }, Except.ok d) := by
    simp only [executeStep, hexec]
  rw [runSteps, if_pos hrun, if_neg (by simp [hname]), hE]

theorem runSteps_cons_seq_error (fbe : String → String) (step s2 : Step)
    (rest2 : List Step) (st : PipelineState) (executed : List String)
    (e : String) (hrun : step.shouldRun st = true)
    (hname : step.name ≠ "04-tailwind-css")
    (hexec : step.execute { st with
      phase := step.phase
      phaseTrace := st.phaseTrace ++ [step.phase] } = .error e) :
    runSteps fbe (step :: s2 :: rest2) st executed
      = failResult fbe step.name e { st with
          phase := step.phase
          phaseTrace := st.phaseTrace ++ [step.phase] }
          (executed ++ [step.name]) := by
  have hE : executeStep step st = ({ st with
      phase := step.phase
      phaseTrace := st.phaseTrace ++ [step.phase] }, Except.error e) := by
    simp only [executeStep, hexec]
  rw [runSteps, if_pos hrun, if_neg (by simp [hname]), hE]

/-- A concrete single-page build environment in which every external
effect succeeds, used to evaluate the pipeline at specific inputs. -/
def sampleWorld : PipelineWorld where
  ensureDepsResult := .ok ()
  resetDirsResult := .ok ()
  mdxFiles := ["/proj/pages/index.mdx"]
  pagesDir := "/proj/pages"
  clientSrcDir := "/proj/.scratch-build-cache/client-src"
  serverSrcDir := "/proj/.scratch-build-cache/server-src"
  tailwindResult := .ok (some "styles-abc123.css")
  serverBunBuild := .ok { success := true, logs := [] }
  clientBunBuild := .ok { success := true, logs := [] }
  clientJsOutputMap :=
    [("index", "/proj/.scratch-build-cache/client-compiled/index-h4sh.js")]
  renderPage := fun _ => "<html></html>"
  preprocessErrors := []

/-! ### Claim theorems: orchestrator error handling and skipping -/

/-- C7: when document discovery yields zero entries and the two steps
before entry generation succeed, the entry-generation step throws the
actionable no-pages message (which instructs the user to create a
document), the pipeline ends with phase Failed, failedStep names the
entry-generation step, the formatted error is rethrown, and no later
step executes. -/
theorem entryGeneration_fails_on_empty_pages (fbe : String → String)
    (w : PipelineWorld) (tailSteps : List Step) (opts : BuildOptions)
    (hdeps : w.ensureDepsResult = .ok ())
    (hreset : w.resetDirsResult = .ok ())
    (hempty : getEntries w.mdxFiles w.pagesDir = []) :
    (runBuildPipeline fbe w tailSteps opts).state.phase = .Failed ∧
    (runBuildPipeline fbe w tailSteps opts).state.failedStep
      = some "03-create-tsx-entries" ∧
    (runBuildPipeline fbe w tailSteps opts).state.error
      = some noPagesMessage ∧
    (runBuildPipeline fbe w tailSteps opts).thrown
      = some (fbe noPagesMessage) ∧
    (runBuildPipeline fbe w tailSteps opts).executed
      = ["01-ensure-dependencies", "02-reset-directories",
         "03-create-tsx-entries"] ∧
    "Create MDX files in the pages/ directory".data <:+: noPagesMessage.data := by
  have e1 := runSteps_cons_seq_ok fbe (ensureDependenciesStep w)
    (resetDirectoriesStep w)
    (createTsxEntriesStep w :: tailwindCssStep w :: serverBuildStep w ::
      renderServerStep w :: clientBuildStep w :: tailSteps)
    (initialState opts) [] StepData.void rfl
    (by simp [ensureDependenciesStep])
    (by simp [ensureDependenciesStep, hdeps, Except.map])
  have e2 := runSteps_cons_seq_ok fbe (resetDirectoriesStep w)
    (createTsxEntriesStep w)
    (tailwindCssStep w :: serverBuildStep w :: renderServerStep w ::
      clientBuildStep w :: tailSteps)
    { phase := .EnsureDependencies
      options := opts
      outputs := {}
      timings := ["01-ensure-dependencies"]
      phaseTrace := [.EnsureDependencies] }
    ["01-ensure-dependencies"] StepData.void rfl
    (by simp [resetDirectoriesStep])
    (by simp [resetDirectoriesStep, hreset, Except.map])
  have e3 := runSteps_cons_seq_error fbe (createTsxEntriesStep w)
    (tailwindCssStep w)
    (serverBuildStep w :: renderServerStep w :: clientBuildStep w :: tailSteps)
    { phase := .ResetDirectories
      options := opts
      outputs := {}
      timings := ["01-ensure-dependencies", "02-reset-directories"]
      phaseTrace := [.EnsureDependencies, .ResetDirectories] }
    ["01-ensure-dependencies", "02-reset-directories"] noPagesMessage rfl
    (by simp [createTsxEntriesStep])
    (by simp [createTsxEntriesStep, hempty])
  have hPIPE : runBuildPipeline fbe w tailSteps opts
      = failResult fbe (createTsxEntriesStep w).name noPagesMessage
          { phase := .CreateTsxEntries
            options := opts
            outputs := {}
            timings := ["01-ensure-dependencies", "02-reset-directories"]
            phaseTrace := [.EnsureDependencies, .ResetDirectories,
              .CreateTsxEntries] }
          ["01-ensure-dependencies", "02-reset-directories",
           "03-create-tsx-entries"] :=
    e1.trans (e2.trans e3)
  refine ⟨?_, ?_, ?_, ?_, ?_, by decide⟩ <;> rw [hPIPE] <;> rfl

/-- Witness for the empty-pages theorem at a concrete environment whose
pages directory holds no documents. -/
theorem entryGeneration_fails_on_empty_pages_witness :
    (runBuildPipeline (fun e => e) { sampleWorld with mdxFiles := [] } []
      { ssg := none }).state.phase = .Failed ∧
    (runBuildPipeline (fun e => e) { sampleWorld with mdxFiles := [] } []
      { ssg := none }).state.failedStep = some "03-create-tsx-entries" ∧
    (runBuildPipeline (fun e => e) { sampleWorld with mdxFiles := [] } []
      { ssg := none }).state.error = some noPagesMessage ∧
    (runBuildPipeline (fun e => e) { sampleWorld with mdxFiles := [] } []
      { ssg := none }).thrown = some ((fun e => e) noPagesMessage) ∧
    (runBuildPipeline (fun e => e) { sampleWorld with mdxFiles := [] } []
      { ssg := none }).executed
      = ["01-ensure-dependencies", "02-reset-directories",
         "03-create-tsx-entries"] ∧
    "Create MDX files in the pages/ directory".data <:+: noPagesMessage.data :=
  entryGeneration_fails_on_empty_pages (fun e => e)
    { sampleWorld with mdxFiles := [] } [] { ssg := none } rfl rfl rfl

/-- C8: for every build with pre-render disabled, the server-bundle and
render run predicates are false at every state carrying these options,
and the two steps leave no trace on the pipeline: they are never
executed, no phase transition or timing entry of theirs is recorded, and
outputs.renderedContent stays unset through the entire run, whatever the
outcomes of the other steps. -/
theorem ssg_disabled_skips_server_steps (fbe : String → String)
    (w : PipelineWorld) (tailSteps : List Step) (opts : BuildOptions)
    (hssg : opts.ssg ≠ some true)
    (hnames : ∀ s ∈ tailSteps,
      s.name ≠ "05-server-build" ∧ s.name ≠ "05b-render-server")
    (hphases : ∀ s ∈ tailSteps,
      s.phase ≠ BuildPhase.ServerBuild ∧ s.phase ≠ BuildPhase.RenderServer) :
    (∀ st : PipelineState, st.options = opts →
      (serverBuildStep w).shouldRun st = false ∧
      (renderServerStep w).shouldRun st = false) ∧
    NoServerTrace (runBuildPipeline fbe w tailSteps opts) := by
  have hsr : ∀ st : PipelineState, st.options = opts →
      (serverBuildStep w).shouldRun st = false ∧
      (renderServerStep w).shouldRun st = false := by
    intro st hst
    constructor
    · simp [serverBuildStep, hst, hssg]
    · simp [renderServerStep, hst, hssg]
  refine ⟨hsr, ?_⟩
  rw [runBuildPipeline]
  apply runSteps_server_skipped fbe opts
  · intro s hs
    rw [buildSteps] at hs
    rcases List.mem_append.mp hs with hs | hs
    · simp only [List.mem_cons, List.not_mem_nil, or_false] at hs
      rcases hs with rfl | rfl | rfl | rfl | rfl | rfl | rfl
      · exact Or.inl (by refine ⟨?_, ?_, ?_, ?_⟩ <;> simp [ensureDependenciesStep])
      · exact Or.inl (by refine ⟨?_, ?_, ?_, ?_⟩ <;> simp [resetDirectoriesStep])
      · exact Or.inl (by refine ⟨?_, ?_, ?_, ?_⟩ <;> simp [createTsxEntriesStep])
      · exact Or.inl (by refine ⟨?_, ?_, ?_, ?_⟩ <;> simp [tailwindCssStep])
      · exact Or.inr (fun st' hst' => (hsr st' hst').1)
      · exact Or.inr (fun st' hst' => (hsr st' hst').2)
      · exact Or.inl (by refine ⟨?_, ?_, ?_, ?_⟩ <;> simp [clientBuildStep])
    · exact Or.inl ⟨(hphases s hs).1, (hphases s hs).2, (hnames s hs).1,
        (hnames s hs).2⟩
  · rfl
  · rfl
  · simp
  · simp
  · simp [initialState]
  · simp [initialState]
  · simp [initialState]
  · simp [initialState]

/-- Witness for the pre-render-disabled theorem at the concrete sample
environment with ssg unset. -/
theorem ssg_disabled_skips_server_steps_witness :
    (∀ st : PipelineState, st.options = { ssg := none } →
      (serverBuildStep sampleWorld).shouldRun st = false ∧
      (renderServerStep sampleWorld).shouldRun st = false) ∧
    NoServerTrace (runBuildPipeline (fun e => e) sampleWorld []
      { ssg := none }) :=
  ssg_disabled_skips_server_steps (fun e => e) sampleWorld [] { ssg := none }
    (by simp) (by simp) (by simp)

/-- C2: evaluation of the pipeline at a pre-render build in which the
style step succeeds and the server bundler reports failure: the phase is
Failed, the server step's own error is recorded in state and rethrown
formatted, and no later step executes - but state.failedStep records the
style step's name 04-tailwind-css instead of the failing bundler step's
name 05-server-build. -/
theorem serverBuild_parallel_failure_misattributes_failedStep
    (fbe : String → String) :
    (runBuildPipeline fbe { sampleWorld with
        serverBunBuild := .ok
          { success := false, logs := ["error: could not resolve entry"] } } []
      { ssg := some true }).state.phase = .Failed ∧
    (runBuildPipeline fbe { sampleWorld with
        serverBunBuild := .ok
          { success := false, logs := ["error: could not resolve entry"] } } []
      { ssg := some true }).state.error
      = some "Server build failed:\nerror: could not resolve entry" ∧
    (runBuildPipeline fbe { sampleWorld with
        serverBunBuild := .ok
          { success := false, logs := ["error: could not resolve entry"] } } []
      { ssg := some true }).thrown
      = some (fbe "Server build failed:\nerror: could not resolve entry") ∧
    (runBuildPipeline fbe { sampleWorld with
        serverBunBuild := .ok
          { success := false, logs := ["error: could not resolve entry"] } } []
      { ssg := some true }).executed
      = ["01-ensure-dependencies", "02-reset-directories",
         "03-create-tsx-entries", "04-tailwind-css", "05-server-build"] ∧
    (runBuildPipeline fbe { sampleWorld with
        serverBunBuild := .ok
          { success := false, logs := ["error: could not resolve entry"] } } []
      { ssg := some true }).state.failedStep = some "04-tailwind-css" ∧
    (runBuildPipeline fbe { sampleWorld with
        serverBunBuild := .ok
          { success := false, logs := ["error: could not resolve entry"] } } []
      { ssg := some true }).state.failedStep ≠ some "05-server-build" := by
  have h5 : (runBuildPipeline fbe { sampleWorld with
      serverBunBuild := .ok
        { success := false, logs := ["error: could not resolve entry"] } } []
      { ssg := some true }).state.failedStep = some "04-tailwind-css" := rfl
  refine ⟨rfl, rfl, rfl, rfl, h5, ?_⟩
  rw [h5]
  decide

end Scratch
